import Mathlib

/-!
Verification of the Skill & MCP Configuration Synchronization Engine of the
`oh-my-skills` repository (a Tauri desktop app: React/TypeScript frontend in
`src/`, Rust backend engine specified in `spec.md`).

The TypeScript frontend (`src/App.tsx`, `src/components/MCPPanel.tsx`,
`src/components/SkillDetail.tsx`, `src/types/index.ts`) is embedded
faithfully below.  The Rust backend (AgentRegistry, SkillStore,
ConfigDocument, McpServerManager) is not part of the available sources; where
a claim is decided by backend behaviour, the corresponding definition is
modelled from the spec and its doc comment says so.

All string manipulation is implemented structurally over `List Char` so that
every definition evaluates by kernel reduction on concrete inputs.
-/

/-- Character predicate for ASCII whitespace, matching the characters the
JavaScript regex `\s` matches in the inputs that occur here. -/
def isWsChar (c : Char) : Bool :=
  c = ' ' || c = '\t' || c = '\n' || c = '\r'

/-- Split a character list at every character satisfying `p`; the accumulator
holds the current (reversed) chunk.  Mirrors the semantics of JavaScript
`String.prototype.split` with a single-character separator class: consecutive
separators yield empty chunks. -/
def splitChars (p : Char → Bool) : List Char → List Char → List String
  | [], cur => [String.mk cur.reverse]
  | c :: rest, cur =>
    if p c then String.mk cur.reverse :: splitChars p rest []
    else splitChars p rest (c :: cur)

/-- Drop whitespace from both ends of a character list (the behaviour of
JavaScript `String.prototype.trim` on the ASCII inputs used here). -/
def trimChars (l : List Char) : List Char :=
  ((l.dropWhile isWsChar).reverse.dropWhile isWsChar).reverse

/-- `trim` re-implemented structurally. -/
def strTrim (s : String) : String :=
  String.mk (trimChars s.data)

/-- ASCII lower-casing of one character. -/
def lowerChar (c : Char) : Char :=
  if 'A' ≤ c && c ≤ 'Z' then Char.ofNat (c.toNat + 32) else c

/-- ASCII lower-casing of a string, structurally. -/
def strLower (s : String) : String :=
  String.mk (s.data.map lowerChar)

/-- First value stored under key `k` in an ordered association list. -/
def lookupKey (k : String) : List (String × α) → Option α
  | [] => none
  | p :: rest => if p.1 = k then some p.2 else lookupKey k rest

/-- Insert-or-replace under key `k`: if the key is present its value is
replaced in place (keeping its position), otherwise the pair is appended at
the end.  This is the update discipline of an order-preserving JSON/TOML map
(`serde_json`/`indexmap` style), and the upsert used by the engine. -/
def upsertKey (k : String) (v : α) : List (String × α) → List (String × α)
  | [] => [(k, v)]
  | p :: rest => if p.1 = k then (k, v) :: rest else p :: upsertKey k v rest

/-- Remove every pair stored under key `k`. -/
def eraseKey (k : String) : List (String × α) → List (String × α)
  | [] => []
  | p :: rest => if p.1 = k then eraseKey k rest else p :: eraseKey k rest

/-- Ordered JSON-like tree: the in-memory image of a configuration file.
Object fields keep their on-disk order. -/
inductive Json where
  | null : Json
  | bool : Bool → Json
  | num : Int → Json
  | str : String → Json
  | arr : List Json → Json
  | obj : List (String × Json) → Json

/-- Field access on a JSON object (`none` on non-objects and absent keys),
the model of JavaScript property access `value.key` / `"key" in value`. -/
def getField : Json → String → Option Json
  | .obj fs, k => lookupKey k fs
  | _, _ => none

/-- JavaScript truthiness of a JSON value (`undefined` is modelled by the
surrounding `Option` being `none`). -/
def truthy : Json → Bool
  | .null => false
  | .bool b => b
  | .num n => n != 0
  | .str s => s != ""
  | .arr _ => true
  | .obj _ => true

/-- Whether `typeof v === "object" && v` holds in JavaScript: objects and
arrays qualify, `null` is excluded by truthiness. -/
def isObjLike : Json → Bool
  | .obj _ => true
  | .arr _ => true
  | _ => false

/-- The pairs produced by JavaScript `Object.entries`: the fields of an
object, or index/element pairs for an array. -/
def objEntries : Json → List (String × Json)
  | .obj fs => fs
  | .arr xs => xs.enum.map (fun p => (toString p.1, p.2))
  | _ => []

/-- String image of a JSON value as TypeScript's `as string` casts use it in
the dialog code (only string values occur in practice). -/
def jsAsString : Json → String
  | .str s => s
  | .num n => toString n
  | .bool b => if b then "true" else "false"
  | .null => "null"
  | _ => ""

/-- The `as string[]` cast applied to a parsed `args` array. -/
def jsStrArr : Json → List String
  | .arr xs => xs.map jsAsString
  | _ => []

/-- The `as Record of string` cast applied to parsed `env`/`headers`. -/
def jsStrMap : Json → List (String × String)
  | .obj fs => fs.map (fun p => (p.1, jsAsString p.2))
  | _ => []

/-- Error taxonomy of the engine (spec section 7). -/
inductive EngineError where
  | unknownAgent | sourceUnreachable | sourceInvalid | sourceEmpty
  | missingPrimaryFile | pathEscape | invalidServerConfig | notFound
  | configParseError
deriving DecidableEq

/-- MCP transport tag, as in `src/types/index.ts`. -/
inductive Transport where
  | stdio | http
deriving DecidableEq

/-- `AddMcpServerRequest` from `src/types/index.ts`: optional fields are
`Option`s; `env` and `headers` are ordered string maps. -/
structure AddMcpServerRequest where
  name : String
  transport : Transport
  command : Option String := none
  args : Option (List String) := none
  env : Option (List (String × String)) := none
  url : Option String := none
  headers : Option (List (String × String)) := none
deriving DecidableEq

/-- Modelled from the spec: the Rust `ConfigDocument` backend is not in the
sources.  The on-disk file is abstracted as its ordered structured tree; a
loaded document holds the top-level fields verbatim, so "byte-identical" is
modelled as tree-identity including key order and every unrecognized key. -/
structure ConfigDoc where
  fields : List (String × Json)
deriving Inhabited

/-- Modelled from the spec: the well-known key of the MCP server map inside
an agent's configuration file. -/
def serversKey : String := "mcpServers"

/-- Modelled from the spec: `load` returns an empty document when the file
does not exist, the parsed tree for an existing object file, and refuses
(with `ConfigParseError`) a file it could not fully parse. -/
def loadDoc : Option Json → Except EngineError ConfigDoc
  | none => .ok ⟨[]⟩
  | some (Json.obj fs) => .ok ⟨fs⟩
  | some _ => .error .configParseError

/-- Modelled from the spec: `save` writes back exactly the stored tree. -/
def saveDoc (d : ConfigDoc) : Json :=
  Json.obj d.fields

/-- Modelled from the spec: the typed accessor for the server-map subtree;
absence of the subtree yields the empty map, not an error. -/
def getServers (d : ConfigDoc) : List (String × Json) :=
  match lookupKey serversKey d.fields with
  | some (Json.obj m) => m
  | _ => []

/-- Modelled from the spec: rewrite only the server-map subtree, leaving
every sibling key (position and value) untouched. -/
def setServers (d : ConfigDoc) (m : List (String × Json)) : ConfigDoc :=
  ⟨upsertKey serversKey (Json.obj m) d.fields⟩

/-- All document content outside the server-map subtree, in order. -/
def outsideServers (d : ConfigDoc) : List (String × Json) :=
  d.fields.filter (fun p => p.1 != serversKey)

/-- Modelled from the spec: the JSON entry written for an add request —
exactly the fields present on the request. -/
def reqToJson (r : AddMcpServerRequest) : Json :=
  Json.obj
    ((match r.command with | some c => [("command", Json.str c)] | none => []) ++
     (match r.args with
      | some a => [("args", Json.arr (a.map Json.str))]
      | none => []) ++
     (match r.env with
      | some e => [("env", Json.obj (e.map (fun p => (p.1, Json.str p.2))))]
      | none => []) ++
     (match r.url with | some u => [("url", Json.str u)] | none => []) ++
     (match r.headers with
      | some h => [("headers", Json.obj (h.map (fun p => (p.1, Json.str p.2))))]
      | none => []))

/-- Modelled from the spec: the fields required by the request's transport
are present (`command` for stdio, `url` for http). -/
def validReq (r : AddMcpServerRequest) : Bool :=
  match r.transport with
  | .stdio => r.command.isSome
  | .http => r.url.isSome

/-- The document produced by a successful add (upsert by name). -/
def addApply (d : ConfigDoc) (r : AddMcpServerRequest) : ConfigDoc :=
  setServers d (upsertKey r.name (reqToJson r) (getServers d))

/-- Modelled from the spec: `add` validates the transport's required fields
(failing with `InvalidServerConfig`) and otherwise upserts by name. -/
def mcpAdd (d : ConfigDoc) (r : AddMcpServerRequest) : Except EngineError ConfigDoc :=
  if validReq r then .ok (addApply d r) else .error .invalidServerConfig

/-- The full load-mutate-save cycle of an add at the document level: on a
validation error the document is left unchanged. -/
def applyMcpAdd (d : ConfigDoc) (r : AddMcpServerRequest) : ConfigDoc :=
  match mcpAdd d r with
  | .ok d' => d'
  | .error _ => d

/-- Modelled from the spec: `remove` fails with `NotFound` if the name is
absent, else deletes the entry. -/
def mcpRemove (d : ConfigDoc) (n : String) : Except EngineError ConfigDoc :=
  match lookupKey n (getServers d) with
  | none => .error .notFound
  | some _ => .ok (setServers d (eraseKey n (getServers d)))

/-- Set the `disabled` flag inside one server entry, leaving every other
field of the entry untouched (non-object entries are left as they are). -/
def setDisabled (e : Json) (b : Bool) : Json :=
  match e with
  | .obj fs => .obj (upsertKey "disabled" (Json.bool b) fs)
  | other => other

/-- The document produced by a successful toggle of entry `e`. -/
def toggleApply (d : ConfigDoc) (n : String) (e : Json) (b : Bool) : ConfigDoc :=
  setServers d (upsertKey n (setDisabled e b) (getServers d))

/-- Modelled from the spec: `toggle` flips only the disabled flag of the
named entry and fails with `NotFound` if it is absent. -/
def mcpToggle (d : ConfigDoc) (n : String) (b : Bool) : Except EngineError ConfigDoc :=
  match lookupKey n (getServers d) with
  | none => .error .notFound
  | some e => .ok (toggleApply d n e b)

/-- Modelled from the spec: `list` reads the servers subtree; an absent
subtree yields the empty list. -/
def mcpList (d : ConfigDoc) : List (String × Json) :=
  getServers d

/-- A normalized bundle: ordered (relative path, byte content) pairs, the
output of SourceResolver described in the spec. -/
abbrev Bundle : Type := List (String × String)

/-- One agent's on-disk skill root: one named directory (file list) per
skill. -/
abbrev SkillStore : Type := List (String × Bundle)

/-- Modelled from the spec: a top-level primary content file, conventionally
named `SKILL.md` case-insensitively. -/
def isTopPrimary (p : String) : Bool :=
  !(p.data.contains '/') && strLower p = "skill.md"

/-- Modelled from the spec: the content of the first top-level primary file
of a bundle, if any. -/
def findPrimary (files : Bundle) : Option String :=
  match files.find? (fun pc => isTopPrimary pc.1) with
  | some pc => some pc.2
  | none => none

/-- Modelled from the spec: deterministic approximate token count over the
primary file's text — a whitespace word count, stable for equal bytes. -/
def tokenCount (s : String) : Nat :=
  ((splitChars isWsChar s.data []).filter (fun w => w != "")).length

/-- Whether a text is blank: empty or all whitespace.  A blank text has no
words, so any word or sub-word count of it is zero. -/
def isBlank (s : String) : Bool :=
  s.data.all isWsChar

/-- Modelled from the spec: `install` validates that the bundle has a
primary file (else `MissingPrimaryFile`) and then fully replaces any
existing skill of the same name (re-install = upgrade). -/
def installSkill (store : SkillStore) (name : String) (files : Bundle) :
    Except EngineError SkillStore :=
  match findPrimary files with
  | none => .error .missingPrimaryFile
  | some _ => .ok (upsertKey name files store)

/-- Name order on listing entries (name, token count). -/
def skillLe (a b : String × Nat) : Prop := a.1 ≤ b.1

instance : DecidableRel skillLe :=
  fun a b => inferInstanceAs (Decidable (a.1 ≤ b.1))

instance : IsTotal (String × Nat) skillLe :=
  ⟨fun a b => le_total a.1 b.1⟩

instance : IsTrans (String × Nat) skillLe :=
  ⟨fun _ _ _ hab hbc => le_trans hab hbc⟩

/-- The unsorted listing projection: each directory that has a primary file
contributes (name, recomputed token count); directories without a primary
file are silently skipped. -/
def listEntries (store : SkillStore) : List (String × Nat) :=
  store.filterMap (fun p =>
    match findPrimary p.2 with
    | some c => some (p.1, tokenCount c)
    | none => none)

/-- Modelled from the spec: `list` enumerates skills having a primary file,
ordered by name ascending. -/
def listSkills (store : SkillStore) : List (String × Nat) :=
  List.insertionSort skillLe (listEntries store)

/-- Path segments of a requested subpath (split at `/`). -/
def splitPath (p : String) : List String :=
  splitChars (fun c => c = '/') p.data []

/-- Modelled from the spec: whether resolving the segments, starting at
depth `d` inside the skill's own directory, ever steps above that
directory.  `..` decreases the depth (escaping at depth 0), `.` and empty
segments are neutral, anything else descends. -/
def pathEscapes : Nat → List String → Bool
  | _, [] => false
  | d, seg :: rest =>
    if seg = ".." then (if d = 0 then true else pathEscapes (d - 1) rest)
    else if seg = "." || seg = "" then pathEscapes d rest
    else pathEscapes (d + 1) rest

/-- Whether a requested subpath resolves outside the skill directory. -/
def escapesSkillDir (p : String) : Bool :=
  pathEscapes 0 (splitPath p)

/-- Modelled from the spec: `readFile` rejects a path that escapes the
skill's directory with `PathEscape` before touching anything, then reads the
named file of the named skill. -/
def readSkillFile (store : SkillStore) (name path : String) :
    Except EngineError String :=
  if escapesSkillDir path then .error .pathEscape
  else
    match lookupKey name store with
    | none => .error .notFound
    | some files =>
      match lookupKey path files with
      | some content => .ok content
      | none => .error .notFound

/-- Modelled from the spec: `listFiles` rejects an escaping subpath with
`PathEscape`, and otherwise lists the file paths of the skill under that
subpath (the whole directory for `none`). -/
def listSkillFiles (store : SkillStore) (name : String)
    (subpath : Option String) : Except EngineError (List String) :=
  match subpath with
  | none =>
    match lookupKey name store with
    | none => .error .notFound
    | some files => .ok (files.map (fun f => f.1))
  | some p =>
    if escapesSkillDir p then .error .pathEscape
    else
      match lookupKey name store with
      | none => .error .notFound
      | some files =>
        .ok ((files.filter
          (fun f => (p ++ "/").data.isPrefixOf f.1.data)).map (fun f => f.1))

/-- `AgentInfo` from `src/types/index.ts`. -/
structure AgentInfo where
  id : String
  name : String
  skills_path : String
  has_mcp : Bool
deriving DecidableEq

/-- From `src/App.tsx`: whether the MCP tab is offered for the selected
agent.  The TypeScript reads
`agent !== "all" && (agentInfo?.has_mcp ?? agent === "claude")`, where
`agentInfo` is the registry record found by `list_agents` (or `null`). -/
def hasMcp (agent : String) (info : Option AgentInfo) : Bool :=
  agent != "all" &&
    (match info with
     | some i => i.has_mcp
     | none => agent == "claude")

/-- From `src/App.tsx` (header tabs): the Skills tab is always rendered, the
MCP Servers tab only when `hasMcp` holds. -/
def tabsShown (h : Bool) : List String :=
  if h then ["skills", "mcp"] else ["skills"]

/-- The panel rendered in the main content area. -/
inductive Panel where
  | skillsPanel | mcpPanel
deriving DecidableEq

/-- From `src/App.tsx` (main content): the skills panel for the skills tab,
the MCP panel only when `hasMcp` holds, and nothing (no error) otherwise. -/
def appContent (activeTab : String) (h : Bool) : Option Panel :=
  if activeTab = "skills" then some .skillsPanel
  else if h then some .mcpPanel
  else none

/-- The prop of "the registry reports an MCP config path for this agent":
the agent was found by `list_agents` and its record carries `has_mcp`. -/
def reportsMcp (info : Option AgentInfo) : Prop :=
  ∃ i, info = some i ∧ i.has_mcp = true

instance : Decidable (reportsMcp info) := by
  unfold reportsMcp
  match info with
  | none => exact isFalse (by simp)
  | some i => exact decidable_of_iff (i.has_mcp = true) (by simp)

/-- From `src/components/SkillDetail.tsx` (JSON input mode of the add
dialog): the transport inferred for a parsed server config object —
`hasUrl && !hasCommand ? "http" : "stdio"` over key presence. -/
def inferTransport (cfg : Json) : Transport :=
  let hasCommand := (getField cfg "command").isSome
  let hasUrl := (getField cfg "url").isSome
  if hasUrl && !hasCommand then .http else .stdio

/-- Outcome of the add dialog's submit handler: either an error toast (the
backend command is never invoked) or an `add_mcp_server` invocation with the
built request. -/
inductive AddOutcome where
  | toastErr : String → AddOutcome
  | submit : AddMcpServerRequest → AddOutcome
deriving DecidableEq

/-- Truthiness of property `k` of a parsed JSON value (absent keys are
`undefined`, hence falsy). -/
def truthyField (v : Json) (k : String) : Bool :=
  match getField v k with
  | some w => truthy w
  | none => false

/-- From `src/components/SkillDetail.tsx` lines 455-485: given the selected
server name and config object, determine the transport and validate/copy the
transport-specific fields. -/
def buildJsonRequest (serverName : String) (cfg : Json) : AddOutcome :=
  match inferTransport cfg with
  | .stdio =>
    if truthyField cfg "command" then
      AddOutcome.submit
        { name := serverName
          transport := .stdio
          command := (getField cfg "command").map jsAsString
          args :=
            if truthyField cfg "args" then
              (getField cfg "args").map jsStrArr
            else none
          env :=
            match getField cfg "env" with
            | some ev => if truthy ev && isObjLike ev then some (jsStrMap ev) else none
            | none => none }
    else AddOutcome.toastErr "Command is required for stdio transport"
  | .http =>
    if truthyField cfg "url" then
      AddOutcome.submit
        { name := serverName
          transport := .http
          url := (getField cfg "url").map jsAsString
          headers :=
            match getField cfg "headers" with
            | some hv => if truthy hv && isObjLike hv then some (jsStrMap hv) else none
            | none => none }
    else AddOutcome.toastErr "URL is required for http transport"

/-- From `src/components/SkillDetail.tsx` lines 441-453: the fallback when
the input has no `mcpServers` wrapper — either a flat
`name/command/url`-style object, or a single `server-name: config` pair. -/
def handleAddJsonFallback (parsed : Json) : AddOutcome :=
  if truthyField parsed "name" || truthyField parsed "command" ||
      truthyField parsed "url" then
    let serverName :=
      match getField parsed "name" with
      | some nv => if truthy nv then jsAsString nv else "unnamed-server"
      | none => "unnamed-server"
    buildJsonRequest serverName parsed
  else
    match objEntries parsed with
    | [] => AddOutcome.toastErr "Invalid JSON format"
    | e :: _ => buildJsonRequest e.1 e.2

/-- From `src/components/SkillDetail.tsx` lines 423-489 (JSON input mode of
the add dialog, after `JSON.parse` succeeded): with an object-valued
`mcpServers` wrapper, exactly one entry must be present; zero or more than
one entries only show an error toast. -/
def handleAddJson (parsed : Json) : AddOutcome :=
  match getField parsed "mcpServers" with
  | some v =>
    if isObjLike v then
      match objEntries v with
      | [] => AddOutcome.toastErr "No server found in mcpServers"
      | [e] => buildJsonRequest e.1 e.2
      | _ :: _ :: _ => AddOutcome.toastErr "Please add one server at a time"
    else handleAddJsonFallback parsed
  | none => handleAddJsonFallback parsed

/-- What an outcome does to the agent's config document: a toast leaves the
file untouched; a submit runs the backend add cycle. -/
def runOutcome (o : AddOutcome) (d : ConfigDoc) : ConfigDoc :=
  match o with
  | .toastErr _ => d
  | .submit req => applyMcpAdd d req

/-- Whether an outcome is an error toast (so the backend command was never
invoked). -/
def isToastErr : AddOutcome → Bool
  | .toastErr _ => true
  | .submit _ => false

/-- The form state of the add-server dialog (`src/components/MCPPanel.tsx`
lines 16-22). -/
structure McpForm where
  name : String
  command : String
  args : String
  url : String
  token : String

/-- From `src/components/MCPPanel.tsx` lines 61-62 (same in
`SkillDetail.tsx` lines 508-509): the space-separated arguments field is
split on runs of whitespace and empty pieces are removed —
`form.args.split(/\s+/).filter(Boolean)`.  Splitting at every whitespace
character and then filtering out empty strings yields exactly the same
result as splitting on runs and filtering. -/
def splitArgs (s : String) : List String :=
  (splitChars isWsChar s.data []).filter (fun w => w != "")

/-- From `src/components/MCPPanel.tsx` lines 45-73 (form mode of the add
dialog): an empty name silently refuses (line 46, `none`); a missing
command/url shows a toast; otherwise the request is built, with `args`
present only when the trimmed arguments field is non-blank and `headers`
holding a bearer token when one was entered. -/
def handleAddForm (transport : Transport) (form : McpForm) :
    Option AddOutcome :=
  if strTrim form.name = "" then none
  else
    match transport with
    | .stdio =>
      if strTrim form.command = "" then
        some (AddOutcome.toastErr "Command is required")
      else
        some (AddOutcome.submit
          { name := strTrim form.name
            transport := .stdio
            command := some (strTrim form.command)
            args :=
              if strTrim form.args != "" then some (splitArgs form.args)
              else none })
    | .http =>
      if strTrim form.url = "" then
        some (AddOutcome.toastErr "URL is required")
      else
        some (AddOutcome.submit
          { name := strTrim form.name
            transport := .http
            url := some (strTrim form.url)
            headers :=
              if strTrim form.token != "" then
                some [("Authorization", "Bearer " ++ strTrim form.token)]
              else none })

theorem lookupKey_upsertKey_self (k : String) (v : α) (l : List (String × α)) :
    lookupKey k (upsertKey k v l) = some v := by
  induction l with
  | nil => simp [upsertKey, lookupKey]
  | cons p rest ih =>
    by_cases h : p.1 = k
    · simp [upsertKey, h, lookupKey]
    · simp [upsertKey, h, lookupKey, ih]

theorem lookupKey_upsertKey_ne (k k' : String) (v : α) (l : List (String × α))
    (h : k' ≠ k) : lookupKey k' (upsertKey k v l) = lookupKey k' l := by
  have hkk : ¬k = k' := fun he => h he.symm
  induction l with
  | nil => simp [upsertKey, lookupKey, hkk]
  | cons p rest ih =>
    by_cases hp : p.1 = k
    · subst hp
      simp [upsertKey, lookupKey, hkk]
    · simp only [upsertKey, if_neg hp, lookupKey]
      by_cases hq : p.1 = k'
      · simp [hq]
      · simp [hq, ih]

theorem upsertKey_upsertKey (k : String) (v w : α) (l : List (String × α)) :
    upsertKey k v (upsertKey k w l) = upsertKey k v l := by
  induction l with
  | nil => simp [upsertKey]
  | cons p rest ih =>
    by_cases h : p.1 = k
    · simp [upsertKey, h]
    · simp [upsertKey, h, ih]

theorem filterNe_upsertKey (k : String) (v : α) (l : List (String × α)) :
    (upsertKey k v l).filter (fun p => p.1 != k) =
      l.filter (fun p => p.1 != k) := by
  induction l with
  | nil => simp [upsertKey]
  | cons p rest ih =>
    by_cases h : p.1 = k
    · simp [upsertKey, h, List.filter]
    · simp only [upsertKey, if_neg h, List.filter]
      have hb : (p.1 != k) = true := by simp [h]
      simp [hb, ih]

theorem lookupKey_mem (k : String) (v : α) (l : List (String × α))
    (h : lookupKey k l = some v) : (k, v) ∈ l := by
  induction l with
  | nil => simp [lookupKey] at h
  | cons p rest ih =>
    by_cases hp : p.1 = k
    · simp only [lookupKey, if_pos hp] at h
      have : p = (k, v) := by
        cases p
        simp_all
      simp [this]
    · simp only [lookupKey, if_neg hp] at h
      exact List.mem_cons_of_mem _ (ih h)

theorem getServers_setServers (d : ConfigDoc) (m : List (String × Json)) :
    getServers (setServers d m) = m := by
  simp [getServers, setServers, lookupKey_upsertKey_self]

theorem outsideServers_setServers (d : ConfigDoc) (m : List (String × Json)) :
    outsideServers (setServers d m) = outsideServers d := by
  simp [outsideServers, setServers, filterNe_upsertKey]

theorem setServers_setServers (d : ConfigDoc) (m m' : List (String × Json)) :
    setServers (setServers d m) m' = setServers d m' := by
  simp [setServers, upsertKey_upsertKey]

theorem getField_setDisabled_ne (e : Json) (b : Bool) (k : String)
    (h : k ≠ "disabled") : getField (setDisabled e b) k = getField e k := by
  cases e <;> simp [setDisabled, getField]
  exact lookupKey_upsertKey_ne _ _ _ _ h

theorem setDisabled_setDisabled (e : Json) (b : Bool) :
    setDisabled (setDisabled e b) b = setDisabled e b := by
  cases e <;> simp [setDisabled, upsertKey_upsertKey]

/-- C1: loading a document and saving it immediately yields the original
file content unchanged (an absent file loads as the empty document), and
every mutation of the engine — add, remove, toggle — leaves every part of
the document outside the MCP server-map subtree (order and values of all
sibling keys) unchanged by save. -/
theorem configDoc_roundtrip_and_locality
    (fs : List (String × Json)) (d : ConfigDoc) (r : AddMcpServerRequest)
    (n : String) (b : Bool) :
    (loadDoc (some (Json.obj fs)) = Except.ok (ConfigDoc.mk fs) ∧
      saveDoc (ConfigDoc.mk fs) = Json.obj fs ∧
      loadDoc none = Except.ok (ConfigDoc.mk [])) ∧
    outsideServers (applyMcpAdd d r) = outsideServers d ∧
    (∀ d', mcpRemove d n = Except.ok d' →
      outsideServers d' = outsideServers d) ∧
    (∀ d', mcpToggle d n b = Except.ok d' →
      outsideServers d' = outsideServers d) := by
  refine ⟨⟨rfl, rfl, rfl⟩, ?_, ?_, ?_⟩
  · unfold applyMcpAdd mcpAdd
    by_cases h : validReq r = true
    · simp [h, addApply, outsideServers_setServers]
    · simp [h]
  · intro d' h
    unfold mcpRemove at h
    cases hl : lookupKey n (getServers d) with
    | none => rw [hl] at h; cases h
    | some e =>
      rw [hl] at h
      cases h
      exact outsideServers_setServers _ _
  · intro d' h
    unfold mcpToggle at h
    cases hl : lookupKey n (getServers d) with
    | none => rw [hl] at h; cases h
    | some e =>
      rw [hl] at h
      cases h
      exact outsideServers_setServers _ _

/-- Witness for C1 at a concrete document: toggling the only server of a
two-key document leaves the sibling key untouched, and the round trip gives
back the file tree. -/
theorem configDoc_roundtrip_and_locality_witness :
    saveDoc (ConfigDoc.mk [("theme", Json.str "dark")]) =
      Json.obj [("theme", Json.str "dark")] ∧
    outsideServers (ConfigDoc.mk
      [("theme", Json.str "dark"),
       ("mcpServers", Json.obj
         [("srv", Json.obj [("command", Json.str "npx"),
                            ("disabled", Json.bool true)])])]) =
    outsideServers (ConfigDoc.mk
      [("theme", Json.str "dark"),
       ("mcpServers", Json.obj
         [("srv", Json.obj [("command", Json.str "npx")])])]) := by
  have h := configDoc_roundtrip_and_locality [("theme", Json.str "dark")]
    (ConfigDoc.mk
      [("theme", Json.str "dark"),
       ("mcpServers", Json.obj
         [("srv", Json.obj [("command", Json.str "npx")])])])
    { name := "srv", transport := Transport.stdio } "srv" true
  exact ⟨h.1.2.1, h.2.2.2 _ rfl⟩

/-- C3: an add request for stdio without a command, or for http without a
url, fails with `InvalidServerConfig` and leaves the document unchanged (no
entry written); a request carrying its transport's required field is
accepted and its entry is written under its name. -/
theorem mcpAdd_validation (d : ConfigDoc) (r : AddMcpServerRequest) :
    (r.transport = Transport.stdio → r.command = none →
      mcpAdd d r = Except.error EngineError.invalidServerConfig ∧
      applyMcpAdd d r = d) ∧
    (r.transport = Transport.http → r.url = none →
      mcpAdd d r = Except.error EngineError.invalidServerConfig ∧
      applyMcpAdd d r = d) ∧
    (r.transport = Transport.stdio → r.command.isSome = true →
      mcpAdd d r = Except.ok (addApply d r) ∧
      lookupKey r.name (getServers (addApply d r)) = some (reqToJson r)) ∧
    (r.transport = Transport.http → r.url.isSome = true →
      mcpAdd d r = Except.ok (addApply d r) ∧
      lookupKey r.name (getServers (addApply d r)) = some (reqToJson r)) := by
  have hlook : lookupKey r.name (getServers (addApply d r)) = some (reqToJson r) := by
    unfold addApply
    rw [getServers_setServers]
    exact lookupKey_upsertKey_self _ _ _
  refine ⟨?_, ?_, ?_, ?_⟩
  · intro ht hc
    have hv : validReq r = false := by simp [validReq, ht, hc]
    simp [mcpAdd, applyMcpAdd, hv]
  · intro ht hu
    have hv : validReq r = false := by simp [validReq, ht, hu]
    simp [mcpAdd, applyMcpAdd, hv]
  · intro ht hc
    have hv : validReq r = true := by simp [validReq, ht, hc]
    simp [mcpAdd, hv, hlook]
  · intro ht hu
    have hv : validReq r = true := by simp [validReq, ht, hu]
    simp [mcpAdd, hv, hlook]

/-- Witness for C3: the concrete stdio request without a command is refused
and writes nothing; adding the command makes it accepted. -/
theorem mcpAdd_validation_witness :
    (mcpAdd (ConfigDoc.mk []) { name := "srv", transport := Transport.stdio } =
      Except.error EngineError.invalidServerConfig ∧
     applyMcpAdd (ConfigDoc.mk []) { name := "srv", transport := Transport.stdio } =
      ConfigDoc.mk []) ∧
    mcpAdd (ConfigDoc.mk [])
        { name := "srv", transport := Transport.stdio, command := some "npx" } =
      Except.ok (addApply (ConfigDoc.mk [])
        { name := "srv", transport := Transport.stdio, command := some "npx" }) := by
  refine ⟨(mcpAdd_validation (ConfigDoc.mk [])
    { name := "srv", transport := Transport.stdio }).1 rfl rfl, ?_⟩
  exact ((mcpAdd_validation (ConfigDoc.mk [])
    { name := "srv", transport := Transport.stdio, command := some "npx" }).2.2.1
    rfl rfl).1

/-- C4: toggling an existing server entry rewrites only its `disabled`
flag — every other field of the entry, every other entry, and everything
outside the server map are unchanged; toggling with `disabled = true` twice
gives the same document as once, with the entry disabled; toggling an
absent name fails with `NotFound`. -/
theorem mcpToggle_spec (d : ConfigDoc) (n : String) (b : Bool)
    (efs : List (String × Json)) (k n' : String)
    (hk : k ≠ "disabled") (hn : n' ≠ n) :
    (lookupKey n (getServers d) = none →
      mcpToggle d n b = Except.error EngineError.notFound) ∧
    (lookupKey n (getServers d) = some (Json.obj efs) →
      mcpToggle d n b = Except.ok (toggleApply d n (Json.obj efs) b) ∧
      lookupKey n (getServers (toggleApply d n (Json.obj efs) b)) =
        some (setDisabled (Json.obj efs) b) ∧
      getField (setDisabled (Json.obj efs) b) k = getField (Json.obj efs) k ∧
      lookupKey n' (getServers (toggleApply d n (Json.obj efs) b)) =
        lookupKey n' (getServers d) ∧
      outsideServers (toggleApply d n (Json.obj efs) b) = outsideServers d ∧
      mcpToggle (toggleApply d n (Json.obj efs) true) n true =
        Except.ok (toggleApply d n (Json.obj efs) true) ∧
      getField (setDisabled (Json.obj efs) true) "disabled" =
        some (Json.bool true)) := by
  constructor
  · intro h
    unfold mcpToggle
    rw [h]
  · intro h
    have hget : getServers (toggleApply d n (Json.obj efs) b) =
        upsertKey n (setDisabled (Json.obj efs) b) (getServers d) := by
      unfold toggleApply
      exact getServers_setServers _ _
    refine ⟨?_, ?_, ?_, ?_, ?_, ?_, ?_⟩
    · unfold mcpToggle
      rw [h]
    · rw [hget]
      exact lookupKey_upsertKey_self _ _ _
    · exact getField_setDisabled_ne _ _ _ hk
    · rw [hget]
      exact lookupKey_upsertKey_ne _ _ _ _ hn
    · unfold toggleApply
      exact outsideServers_setServers _ _
    · have hgetT : getServers (toggleApply d n (Json.obj efs) true) =
          upsertKey n (setDisabled (Json.obj efs) true) (getServers d) := by
        unfold toggleApply
        exact getServers_setServers _ _
      unfold mcpToggle
      rw [hgetT, lookupKey_upsertKey_self]
      have happ : toggleApply (toggleApply d n (Json.obj efs) true) n
          (setDisabled (Json.obj efs) true) true =
          toggleApply d n (Json.obj efs) true := by
        unfold toggleApply
        rw [getServers_setServers, setDisabled_setDisabled,
          upsertKey_upsertKey, setServers_setServers]
      exact congrArg Except.ok happ
    · simp [setDisabled, getField, lookupKey_upsertKey_self]

/-- Witness for C4 at a concrete document with one enabled server. -/
theorem mcpToggle_spec_witness :
    mcpToggle
        (ConfigDoc.mk
          [("mcpServers", Json.obj
            [("srv", Json.obj [("command", Json.str "npx")]),
             ("other", Json.obj [("url", Json.str "http://x")])])])
        "srv" true =
      Except.ok (toggleApply
        (ConfigDoc.mk
          [("mcpServers", Json.obj
            [("srv", Json.obj [("command", Json.str "npx")]),
             ("other", Json.obj [("url", Json.str "http://x")])])])
        "srv" (Json.obj [("command", Json.str "npx")]) true) ∧
    getField (setDisabled (Json.obj [("command", Json.str "npx")]) true)
        "command" = getField (Json.obj [("command", Json.str "npx")]) "command" ∧
    getField (setDisabled (Json.obj [("command", Json.str "npx")]) true)
        "disabled" = some (Json.bool true) := by
  have h := (mcpToggle_spec
    (ConfigDoc.mk
      [("mcpServers", Json.obj
        [("srv", Json.obj [("command", Json.str "npx")]),
         ("other", Json.obj [("url", Json.str "http://x")])])])
    "srv" true [("command", Json.str "npx")] "command" "other"
    (by decide) (by decide)).2 rfl
  exact ⟨h.1, h.2.2.1, h.2.2.2.2.2.2⟩

/-- C5: an add request whose name already exists succeeds and fully
replaces the existing entry with the entry built from the request (upsert),
leaving every other entry unchanged; reinstalling a skill over an existing
name likewise succeeds and replaces the stored bundle. -/
theorem upsert_on_duplicate_spec (d : ConfigDoc) (r : AddMcpServerRequest)
    (e0 : Json) (n' : String) (store : SkillStore) (name : String)
    (files old : Bundle) (c : String)
    (hdup : lookupKey r.name (getServers d) = some e0)
    (hv : validReq r = true)
    (hn' : n' ≠ r.name)
    (hold : lookupKey name store = some old)
    (hp : findPrimary files = some c) :
    mcpAdd d r = Except.ok (addApply d r) ∧
    lookupKey r.name (getServers (addApply d r)) = some (reqToJson r) ∧
    lookupKey n' (getServers (addApply d r)) = lookupKey n' (getServers d) ∧
    installSkill store name files = Except.ok (upsertKey name files store) ∧
    lookupKey name (upsertKey name files store) = some files := by
  refine ⟨?_, ?_, ?_, ?_, ?_⟩
  · simp [mcpAdd, hv]
  · unfold addApply
    rw [getServers_setServers]
    exact lookupKey_upsertKey_self _ _ _
  · unfold addApply
    rw [getServers_setServers]
    exact lookupKey_upsertKey_ne _ _ _ _ hn'
  · unfold installSkill
    rw [hp]
  · exact lookupKey_upsertKey_self _ _ _

/-- Witness for C5: overwriting the existing entry `srv` and reinstalling
the existing skill `commit` both succeed and replace by name. -/
theorem upsert_on_duplicate_spec_witness :
    mcpAdd (ConfigDoc.mk
        [("mcpServers", Json.obj [("srv", Json.obj [("command", Json.str "old")]),
                                  ("keep", Json.null)])])
        { name := "srv", transport := Transport.stdio, command := some "new" } =
      Except.ok (addApply (ConfigDoc.mk
        [("mcpServers", Json.obj [("srv", Json.obj [("command", Json.str "old")]),
                                  ("keep", Json.null)])])
        { name := "srv", transport := Transport.stdio, command := some "new" }) ∧
    lookupKey "commit"
        (upsertKey "commit" [("SKILL.md", "new content")]
          [("commit", [("SKILL.md", "old content")])]) =
      some [("SKILL.md", "new content")] := by
  have h := upsert_on_duplicate_spec
    (ConfigDoc.mk
      [("mcpServers", Json.obj [("srv", Json.obj [("command", Json.str "old")]),
                                ("keep", Json.null)])])
    { name := "srv", transport := Transport.stdio, command := some "new" }
    (Json.obj [("command", Json.str "old")]) "keep"
    [("commit", [("SKILL.md", "old content")])] "commit"
    [("SKILL.md", "new content")] [("SKILL.md", "old content")] "new content"
    rfl rfl (by decide) rfl rfl
  exact ⟨h.1, h.2.2.2.2⟩

/-- C2: a requested subpath whose resolution escapes the skill's own
directory makes both `readFile` and `listFiles` fail with `PathEscape`, and
no file content is returned. -/
theorem pathEscape_spec (store : SkillStore) (name p : String)
    (h : escapesSkillDir p = true) :
    readSkillFile store name p = Except.error EngineError.pathEscape ∧
    listSkillFiles store name (some p) = Except.error EngineError.pathEscape := by
  constructor
  · unfold readSkillFile
    rw [h]
    rfl
  · simp [listSkillFiles, h]

/-- Witness for C2: `../../etc/passwd` escapes and is rejected on a store
that does contain the skill `commit`. -/
theorem pathEscape_spec_witness :
    readSkillFile [("commit", [("SKILL.md", "content")])] "commit"
        "../../etc/passwd" = Except.error EngineError.pathEscape ∧
    listSkillFiles [("commit", [("SKILL.md", "content")])] "commit"
        (some "../../etc/passwd") = Except.error EngineError.pathEscape :=
  pathEscape_spec [("commit", [("SKILL.md", "content")])] "commit"
    "../../etc/passwd" (by decide)

theorem keys_upsertKey (k : String) (v : α) (l : List (String × α)) :
    (upsertKey k v l).map Prod.fst =
      if k ∈ l.map Prod.fst then l.map Prod.fst
      else l.map Prod.fst ++ [k] := by
  induction l with
  | nil => simp [upsertKey]
  | cons p rest ih =>
    by_cases h : p.1 = k
    · simp [upsertKey, h]
    · have hk : ¬k = p.1 := fun he => h he.symm
      simp only [upsertKey, if_neg h, List.map_cons, ih, List.mem_cons]
      by_cases hm : k ∈ rest.map Prod.fst
      · simp [hm, hk]
      · simp [hm, hk]

theorem nodup_keys_upsertKey (k : String) (v : α) (l : List (String × α))
    (h : (l.map Prod.fst).Nodup) :
    ((upsertKey k v l).map Prod.fst).Nodup := by
  rw [keys_upsertKey]
  by_cases hm : k ∈ l.map Prod.fst
  · simpa [hm] using h
  · simp only [if_neg hm]
    simp [List.nodup_append, h, hm]

theorem filterKey_listEntries_notMem (st : SkillStore) (nm : String)
    (h : nm ∉ st.map Prod.fst) :
    (listEntries st).filter (fun p => p.1 == nm) = [] := by
  induction st with
  | nil => simp [listEntries]
  | cons q rest ih =>
    have hq : ¬q.1 = nm := by
      intro he
      exact h (by simp [he])
    have hr : nm ∉ rest.map Prod.fst := by
      intro hm
      exact h (by simp [hm])
    cases hfp : findPrimary q.2 with
    | none => simpa [listEntries, hfp] using ih hr
    | some c => simpa [listEntries, hfp, List.filter, hq] using ih hr

theorem filterKey_listEntries_upsert (store : SkillStore) (nm : String)
    (files : Bundle) (c : String)
    (hnd : (store.map Prod.fst).Nodup) (hp : findPrimary files = some c) :
    (listEntries (upsertKey nm files store)).filter (fun p => p.1 == nm) =
      [(nm, tokenCount c)] := by
  induction store with
  | nil => simp [upsertKey, listEntries, hp]
  | cons q rest ih =>
    have hnd' : (rest.map Prod.fst).Nodup := by
      simp only [List.map_cons, List.nodup_cons] at hnd
      exact hnd.2
    by_cases h : q.1 = nm
    · have hq1 : q.1 ∉ rest.map Prod.fst := by
        simp only [List.map_cons, List.nodup_cons] at hnd
        exact hnd.1
      have hrest : nm ∉ rest.map Prod.fst := h ▸ hq1
      have hup : upsertKey nm files (q :: rest) = (nm, files) :: rest := by
        simp [upsertKey, h]
      have hstep : listEntries ((nm, files) :: rest) =
          (nm, tokenCount c) :: listEntries rest := by
        simp [listEntries, hp]
      rw [hup, hstep, List.filter_cons_of_pos (by simp),
        filterKey_listEntries_notMem rest nm hrest]
    · cases hfp : findPrimary q.2 with
      | none => simpa [upsertKey, if_neg h, listEntries, hfp] using ih hnd'
      | some c2 =>
        simpa [upsertKey, if_neg h, listEntries, hfp, List.filter, h]
          using ih hnd'

theorem filterKey_listEntries_noPrimary (st : SkillStore) (n : String)
    (fs : Bundle) (hnd : (st.map Prod.fst).Nodup)
    (hmem : lookupKey n st = some fs) (hnp : findPrimary fs = none) :
    (listEntries st).filter (fun p => p.1 == n) = [] := by
  induction st with
  | nil => simp [lookupKey] at hmem
  | cons q rest ih =>
    have hnd' : (rest.map Prod.fst).Nodup := by
      simp only [List.map_cons, List.nodup_cons] at hnd
      exact hnd.2
    by_cases h : q.1 = n
    · have hq2 : q.2 = fs := by
        simp only [lookupKey, if_pos h] at hmem
        exact Option.some.inj hmem
      have hfpq : findPrimary q.2 = none := by rw [hq2]; exact hnp
      have hq1 : q.1 ∉ rest.map Prod.fst := by
        simp only [List.map_cons, List.nodup_cons] at hnd
        exact hnd.1
      have hrest : n ∉ rest.map Prod.fst := h ▸ hq1
      simpa [listEntries, hfpq] using filterKey_listEntries_notMem rest n hrest
    · have hmem' : lookupKey n rest = some fs := by
        simpa [lookupKey, h] using hmem
      cases hfp : findPrimary q.2 with
      | none => simpa [listEntries, hfp] using ih hnd' hmem'
      | some c2 =>
        simpa [listEntries, hfp, List.filter, h] using ih hnd' hmem'

theorem stringMk_eq_empty_iff (l : List Char) : String.mk l = "" ↔ l = [] := by
  constructor
  · intro h
    exact congrArg String.data h
  · intro h
    subst h
    rfl

theorem splitChars_all_ws (p : Char → Bool) :
    ∀ (l cur : List Char),
      ((splitChars p l cur).filter (fun w => w != "") = []) ↔
        (l.all p = true ∧ cur = []) := by
  intro l
  induction l with
  | nil =>
    intro cur
    by_cases h : String.mk cur.reverse = ""
    · have hcur : cur = [] := by
        have := (stringMk_eq_empty_iff _).mp h
        simpa using this
      simp [splitChars, h, hcur]
    · have hcur : cur ≠ [] := by
        intro hc
        subst hc
        exact h rfl
      simp [splitChars, h, hcur]
  | cons c rest ih =>
    intro cur
    by_cases hc : p c
    · by_cases h : String.mk cur.reverse = ""
      · have hcur : cur = [] := by
          have := (stringMk_eq_empty_iff _).mp h
          simpa using this
        simp [splitChars, hc, h, hcur, ih]
      · have hcur : cur ≠ [] := by
          intro hcc
          subst hcc
          exact h rfl
        simp [splitChars, hc, h, hcur, ih]
    · simp [splitChars, hc, ih]

theorem tokenCount_pos_iff (s : String) :
    0 < tokenCount s ↔ isBlank s = false := by
  unfold tokenCount isBlank
  have h := splitChars_all_ws isWsChar s.data []
  simp only [and_true] at h
  simp only [List.length_pos, ne_eq, h, Bool.not_eq_true]

/-- C6 (amended): after a successful install of a bundle under the derived
name `commit`, the listing contains exactly one entry named `commit`, whose
token count is the recomputed token count of the bundle's primary file —
positive exactly when the primary file is not blank (a blank primary file
installs successfully and lists with token count 0); the listing is sorted
by name ascending; and a stored directory without a primary file is
silently absent from the listing. -/
theorem installList_spec (store store' : SkillStore) (files fs2 : Bundle)
    (c : String) (n2 : String)
    (hnd : (store.map Prod.fst).Nodup)
    (hp : findPrimary files = some c)
    (hok : installSkill store "commit" files = Except.ok store')
    (hl2 : lookupKey n2 store' = some fs2)
    (hnp : findPrimary fs2 = none) :
    (listSkills store').filter (fun p => p.1 == "commit") =
      [("commit", tokenCount c)] ∧
    (0 < tokenCount c ↔ isBlank c = false) ∧
    List.Sorted skillLe (listSkills store') ∧
    (listSkills store').filter (fun p => p.1 == n2) = [] := by
  have hstore' : store' = upsertKey "commit" files store := by
    unfold installSkill at hok
    rw [hp] at hok
    exact (Except.ok.inj hok).symm
  subst hstore'
  have hnd' : ((upsertKey "commit" files store).map Prod.fst).Nodup :=
    nodup_keys_upsertKey _ _ _ hnd
  refine ⟨?_, tokenCount_pos_iff c, ?_, ?_⟩
  · have hperm :=
      (List.perm_insertionSort skillLe
        (listEntries (upsertKey "commit" files store))).filter
        (fun p => p.1 == "commit")
    rw [filterKey_listEntries_upsert store "commit" files c hnd hp] at hperm
    exact List.perm_singleton.mp hperm
  · exact List.sorted_insertionSort skillLe _
  · have hperm :=
      (List.perm_insertionSort skillLe
        (listEntries (upsertKey "commit" files store))).filter
        (fun p => p.1 == n2)
    rw [filterKey_listEntries_noPrimary _ n2 fs2 hnd' hl2 hnp] at hperm
    exact List.Perm.eq_nil hperm

/-- Witness for C6: installing a one-file `commit` bundle next to a
directory without a primary file. -/
theorem installList_spec_witness :
    (listSkills [("zzz", [("readme.txt", "no skill")]),
                 ("commit", [("SKILL.md", "hello world")])]).filter
        (fun p => p.1 == "commit") =
      [("commit", tokenCount "hello world")] ∧
    (0 < tokenCount "hello world" ↔ isBlank "hello world" = false) ∧
    List.Sorted skillLe
      (listSkills [("zzz", [("readme.txt", "no skill")]),
                   ("commit", [("SKILL.md", "hello world")])]) ∧
    (listSkills [("zzz", [("readme.txt", "no skill")]),
                 ("commit", [("SKILL.md", "hello world")])]).filter
        (fun p => p.1 == "zzz") = [] :=
  installList_spec [("zzz", [("readme.txt", "no skill")])]
    [("zzz", [("readme.txt", "no skill")]),
     ("commit", [("SKILL.md", "hello world")])]
    [("SKILL.md", "hello world")] [("readme.txt", "no skill")]
    "hello world" "zzz"
    (by decide) rfl rfl rfl rfl

/-- Counterexample to C6 as stated: a bundle whose primary file `SKILL.md`
is blank installs successfully under the name `commit`, yet its listed
token count is 0, not greater than 0. -/
theorem installList_blank_primary_cex :
    installSkill [] "commit" [("SKILL.md", "")] =
      Except.ok [("commit", [("SKILL.md", "")])] ∧
    (listSkills [("commit", [("SKILL.md", "")])]).filter
        (fun p => p.1 == "commit") = [("commit", 0)] ∧
    tokenCount "" = 0 := by
  refine ⟨rfl, ?_, rfl⟩
  decide

/-- Counterexample to C7 as stated: with the agent `claude` selected and no
registry record available (`agentInfo` is `null`), the MCP tab is offered
even though the registry reports no MCP config path. -/
theorem hasMcp_registry_iff_cex :
    ("mcp" ∈ tabsShown (hasMcp "claude" none)) ∧
      ¬reportsMcp (none : Option AgentInfo) := by
  constructor
  · decide
  · simp [reportsMcp]

/-- C7 amended: the MCP tab is offered exactly when the agent is not the
`all` pseudo-agent and either the registry record reports MCP support, or no
registry record is available and the agent is `claude` (the hard-coded
fallback); when it is not offered, neither the tab nor the panel is
rendered and no error is surfaced. -/
theorem hasMcp_spec (a : String) (info : Option AgentInfo) :
    (("mcp" ∈ tabsShown (hasMcp a info)) ↔
      (a ≠ "all" ∧ (reportsMcp info ∨ (info = none ∧ a = "claude")))) ∧
    (hasMcp a info = false →
      appContent "mcp" (hasMcp a info) = none ∧
      "mcp" ∉ tabsShown (hasMcp a info)) := by
  constructor
  · have hmem : ("mcp" ∈ tabsShown (hasMcp a info)) ↔ hasMcp a info = true := by
      by_cases h : hasMcp a info
      · simp [h, tabsShown]
      · simp only [Bool.not_eq_true] at h
        simp [h, tabsShown]
    rw [hmem]
    cases info with
    | none =>
      simp [hasMcp, reportsMcp, Bool.and_eq_true, bne_iff_ne, beq_iff_eq]
    | some i =>
      simp [hasMcp, reportsMcp, Bool.and_eq_true, bne_iff_ne]
  · intro h
    rw [h]
    constructor
    · simp [appContent]
    · simp [tabsShown]

/-- Witness for C7 at a concrete agent whose registry record reports no MCP
support: nothing MCP-related is rendered and no error value exists. -/
theorem hasMcp_spec_witness :
    appContent "mcp"
        (hasMcp "codex" (some ⟨"codex", "Codex CLI", "~/.codex/skills", false⟩)) =
      none ∧
    "mcp" ∉ tabsShown
        (hasMcp "codex" (some ⟨"codex", "Codex CLI", "~/.codex/skills", false⟩)) :=
  (hasMcp_spec "codex"
    (some ⟨"codex", "Codex CLI", "~/.codex/skills", false⟩)).2 (by decide)

/-- C8: in JSON input mode the inferred transport is `http` exactly when the
parsed server config has a `url` key and no `command` key; in every other
case — in particular when both keys are present — it is `stdio`. -/
theorem inferTransport_spec (cfg : Json) :
    (inferTransport cfg = Transport.http ↔
      ((getField cfg "url").isSome = true ∧
       (getField cfg "command").isSome = false)) ∧
    ((getField cfg "command").isSome = true →
      inferTransport cfg = Transport.stdio) := by
  unfold inferTransport
  by_cases h1 : (getField cfg "url").isSome <;>
    by_cases h2 : (getField cfg "command").isSome <;>
      simp [h1, h2]

/-- Witness for C8: a config carrying both `command` and `url` keys infers
`stdio`. -/
theorem inferTransport_spec_witness :
    inferTransport (Json.obj [("command", Json.str "npx"),
                              ("url", Json.str "http://h")]) =
      Transport.stdio :=
  (inferTransport_spec (Json.obj [("command", Json.str "npx"),
                                  ("url", Json.str "http://h")])).2 rfl

/-- C9: in JSON input mode, when the top-level `mcpServers` object holds
zero entries or more than one entry, the dialog only shows an error toast —
the `add_mcp_server` command is never invoked and the config document is
left unchanged; exactly one entry is required per add. -/
theorem handleAddJson_entry_count_spec (parsed v : Json) (d : ConfigDoc)
    (hv : getField parsed "mcpServers" = some v)
    (ho : isObjLike v = true)
    (hn : objEntries v = [] ∨ 2 ≤ (objEntries v).length) :
    isToastErr (handleAddJson parsed) = true ∧
    runOutcome (handleAddJson parsed) d = d := by
  have htoast : isToastErr (handleAddJson parsed) = true := by
    unfold handleAddJson
    rw [hv]
    simp only [ho, if_true]
    rcases hn with h0 | h2
    · rw [h0]
      rfl
    · cases hl : objEntries v with
      | nil => rfl
      | cons e t =>
        cases t with
        | nil =>
          rw [hl] at h2
          simp at h2
        | cons e2 t2 => rfl
  refine ⟨htoast, ?_⟩
  cases ho : handleAddJson parsed with
  | toastErr msg => simp [runOutcome]
  | submit req => rw [ho] at htoast; simp [isToastErr] at htoast

/-- Witness for C9: an empty `mcpServers` object produces a toast and leaves
the concrete document unchanged. -/
theorem handleAddJson_entry_count_spec_witness :
    isToastErr (handleAddJson (Json.obj [("mcpServers", Json.obj [])])) = true ∧
    runOutcome (handleAddJson (Json.obj [("mcpServers", Json.obj [])]))
        (ConfigDoc.mk [("other", Json.str "keep")]) =
      ConfigDoc.mk [("other", Json.str "keep")] :=
  handleAddJson_entry_count_spec (Json.obj [("mcpServers", Json.obj [])])
    (Json.obj []) (ConfigDoc.mk [("other", Json.str "keep")])
    rfl rfl (Or.inl rfl)

theorem mem_splitArgs_ne_empty (s : String) (a : String)
    (h : a ∈ splitArgs s) : a ≠ "" := by
  unfold splitArgs at h
  have := (List.mem_filter.mp h).2
  simpa using this

/-- C10: in form mode, a submitted stdio request carries as `args` exactly
the arguments string split on runs of whitespace with empty strings removed
— so the list never contains an empty string — and when the trimmed
arguments field is blank the request carries no `args` field at all. -/
theorem handleAddForm_args_spec (form : McpForm) (req : AddMcpServerRequest)
    (h : handleAddForm Transport.stdio form = some (AddOutcome.submit req)) :
    (strTrim form.args = "" → req.args = none) ∧
    (strTrim form.args ≠ "" → req.args = some (splitArgs form.args)) ∧
    (∀ l, req.args = some l → ∀ a ∈ l, a ≠ "") := by
  unfold handleAddForm at h
  by_cases h1 : strTrim form.name = ""
  · rw [if_pos h1] at h
    cases h
  · rw [if_neg h1] at h
    by_cases h2 : strTrim form.command = ""
    · rw [if_pos h2] at h
      simp at h
    · rw [if_neg h2] at h
      simp only [Option.some.injEq] at h
      have hreq := (AddOutcome.submit.inj h).symm
      subst hreq
      refine ⟨?_, ?_, ?_⟩
      · intro hb
        simp [hb]
      · intro hb
        have : (strTrim form.args != "") = true := by simpa using hb
        simp [this]
      · intro l hl a ha
        by_cases hb : strTrim form.args = ""
        · simp [hb] at hl
        · have hbne : (strTrim form.args != "") = true := by simpa using hb
          simp only [hbne, if_true] at hl
          have : l = splitArgs form.args := by
            simpa using hl.symm
          subst this
          exact mem_splitArgs_ne_empty form.args a ha

/-- Witness for C10: the concrete arguments field with leading, trailing and
doubled whitespace produces exactly the whitespace-separated words, none of
them empty. -/
theorem handleAddForm_args_spec_witness :
    (some ["-y", "pkg"] : Option (List String)) =
      some (splitArgs " -y  pkg ") ∧
    ("-y" : String) ≠ "" := by
  have h := handleAddForm_args_spec ⟨"srv", "npx", " -y  pkg ", "", ""⟩
    { name := "srv", transport := Transport.stdio, command := some "npx",
      args := some ["-y", "pkg"] } (by decide)
  exact ⟨h.2.1 (by decide), h.2.2 ["-y", "pkg"] (by decide) "-y" (by decide)⟩
